import Mathlib

/-!
# Verification of `nomadlogs` (scottfrazer/nomadlogs, src/main.go)

A shallow embedding of the Go program `main.go` into Lean 4, together with
theorems settling the specification claims.

Modelling conventions:
* Go strings are Lean `String`s.  All string constants appearing in the
  program (task names, job ids, error texts) are ASCII, so the byte-level
  operations of the Go standard library (`strings.Split`, `strings.Contains`,
  slicing `s[:8]`) coincide with the character-level operations modelled here.
* Go's `nil`-able pointers and fallible operations are modelled with
  `Option` / `Except`; a Go panic is modelled as `Option.none`.
* The concurrent parts (goroutines, channels, the mutex around
  `allocationsWatched`) are modelled by making the state changes of the
  discovery loop explicit: one execution of the body of `poll`'s `for` loop
  becomes a pure function from the watched set (and the allocation list
  served by the Nomad API) to the new watched set plus the list of stream
  consumers started.  The `select` loop of `watchAllocationLogs` becomes a
  pure step function on the events that can arrive on its four channels.
-/

namespace Nomadlogs

/-! ## Go string primitives -/

/-- `strings.Split(s, sep)` for a one-character separator, on character
lists.  Splits at every occurrence of `c`; the result always has one more
element than the number of occurrences of `c`. -/
def splitOnCharAux (c : Char) : List Char → List Char → List (List Char)
  | [], acc => [acc.reverse]
  | x :: xs, acc =>
    if x = c then acc.reverse :: splitOnCharAux c xs []
    else splitOnCharAux c xs (x :: acc)

/-- Go `strings.Split(s, string(c))` (single-character separator). -/
def goSplit (s : String) (c : Char) : List String :=
  (splitOnCharAux c s.data []).map List.asString

/-- Go `strings.Contains(s, sub)`: substring containment. -/
def goContains (s sub : String) : Bool :=
  decide (sub.data <:+: s.data)

/-- Number of occurrences of a character in a string. -/
def charCount (s : String) (c : Char) : Nat :=
  s.data.count c

theorem splitOnCharAux_length (c : Char) :
    ∀ (l : List Char) (acc : List Char),
      (splitOnCharAux c l acc).length = l.count c + 1 := by
  intro l
  induction l with
  | nil => intro acc; simp [splitOnCharAux]
  | cons x xs ih =>
    intro acc
    by_cases hx : x = c
    · simp [splitOnCharAux, hx, ih, List.count_cons]
    · simp [splitOnCharAux, hx, ih, List.count_cons]

/-- The number of fragments `strings.Split` produces is one more than the
number of separator occurrences. -/
theorem goSplit_length (s : String) (c : Char) :
    (goSplit s c).length = charCount s c + 1 := by
  simp [goSplit, charCount, splitOnCharAux_length]

/-! ## Target parsing (`NewTailCommand`, main.go lines 85–109)

A `nomadTask` is the pair `{job, task}` built from a `job:task` or bare
`task` CLI argument. -/

structure nomadTask where
  job : String
  task : String
  deriving DecidableEq, Repr

/-- The body of the `for _, task := range tasks` loop of `NewTailCommand`
(main.go 96–107), one element at a time: split the specifier on `:`, abort
the whole parse if there are more than two parts, otherwise append a
`nomadTask` built from the two parts (or, for a bare `task`, an empty job
filter).  The Go loop appends nothing when `len(split)` is neither 1 nor 2;
with a non-empty separator `strings.Split` always returns at least one part,
so that branch is unreachable, but it is kept for faithfulness. -/
def parseTasksLoop : List String → Except String (List nomadTask)
  | [] => .ok []
  | task :: rest =>
    let split := goSplit task ':'
    if split.length > 2 then
      .error ("expecting 'job:task' or 'task', got " ++ task)
    else do
      let tail ← parseTasksLoop rest
      if h : split.length = 2 then
        return ⟨split[0], split[1]⟩ :: tail
      else if h1 : split.length = 1 then
        return ⟨"", split[0]⟩ :: tail
      else
        return tail

/-- The parsing part of `NewTailCommand` (main.go 92–107): rejects an empty
task list with "no tasks specified", then runs the parsing loop.  (The
construction of the Nomad client, which precedes this in the Go code, is an
I/O concern outside this model.) -/
def parseTasks (tasks : List String) : Except String (List nomadTask) :=
  if tasks.length = 0 then .error "no tasks specified"
  else parseTasksLoop tasks

/-! ### Lemmas about `goSplit` -/

theorem splitOnCharAux_of_not_mem (c : Char) :
    ∀ (l acc : List Char), c ∉ l →
      splitOnCharAux c l acc = [acc.reverse ++ l] := by
  intro l
  induction l with
  | nil => intro acc _; simp [splitOnCharAux]
  | cons x xs ih =>
    intro acc h
    have hx : x ≠ c := fun hxc => h (hxc ▸ List.mem_cons_self x xs)
    have hxs : c ∉ xs := fun hm => h (List.mem_cons_of_mem x hm)
    simp [splitOnCharAux, hx, ih _ hxs]

theorem splitOnCharAux_append (c : Char) :
    ∀ (l₁ l₂ acc : List Char), c ∉ l₁ →
      splitOnCharAux c (l₁ ++ c :: l₂) acc =
        (acc.reverse ++ l₁) :: splitOnCharAux c l₂ [] := by
  intro l₁
  induction l₁ with
  | nil => intro l₂ acc _; simp [splitOnCharAux]
  | cons x xs ih =>
    intro l₂ acc h
    have hx : x ≠ c := fun hxc => h (hxc ▸ List.mem_cons_self x xs)
    have hxs : c ∉ xs := fun hm => h (List.mem_cons_of_mem x hm)
    simp [splitOnCharAux, hx, ih _ _ hxs]

theorem goSplit_of_not_mem (s : String) (c : Char) (h : c ∉ s.data) :
    goSplit s c = [s] := by
  simp [goSplit, splitOnCharAux_of_not_mem c s.data [] h, List.asString]

theorem goSplit_job_task (j t : String) (hj : (':' : Char) ∉ j.data)
    (ht : (':' : Char) ∉ t.data) : goSplit (j ++ ":" ++ t) ':' = [j, t] := by
  have hdata : (j ++ ":" ++ t).data = j.data ++ ':' :: t.data := by
    simp [String.data_append]
  simp [goSplit, hdata, splitOnCharAux_append ':' j.data t.data [] hj,
    splitOnCharAux_of_not_mem ':' t.data [] ht, List.asString]

/-! ### Parsing lemmas -/

theorem parseTasksLoop_error_of_mem :
    ∀ (ts : List String), (∃ a ∈ ts, 2 ≤ charCount a ':') →
      ∃ e, parseTasksLoop ts = .error e := by
  intro ts
  induction ts with
  | nil => rintro ⟨a, ha, _⟩; exact absurd ha (List.not_mem_nil a)
  | cons t rest ih =>
    rintro ⟨a, ha, hcnt⟩
    rcases List.mem_cons.mp ha with rfl | hmem
    · have hlen : (goSplit a ':').length > 2 := by
        rw [goSplit_length]; omega
      refine ⟨"expecting 'job:task' or 'task', got " ++ a, ?_⟩
      simp [parseTasksLoop, hlen]
    · by_cases hlen : (goSplit t ':').length > 2
      · refine ⟨"expecting 'job:task' or 'task', got " ++ t, ?_⟩
        simp [parseTasksLoop, hlen]
      · obtain ⟨e, he⟩ := ih ⟨a, hmem, hcnt⟩
        refine ⟨e, ?_⟩
        simp only [parseTasksLoop, if_neg hlen, he]
        rfl

theorem parseTasksLoop_ok_of_forall :
    ∀ (ts : List String), (∀ a ∈ ts, charCount a ':' ≤ 1) →
      ∃ v, parseTasksLoop ts = .ok v := by
  intro ts
  induction ts with
  | nil => intro _; exact ⟨[], rfl⟩
  | cons t rest ih =>
    intro h
    obtain ⟨v, hv⟩ := ih fun a ha => h a (List.mem_cons_of_mem t ha)
    have hcnt : charCount t ':' ≤ 1 := h t (List.mem_cons_self t rest)
    have hlen1 : (goSplit t ':').length = charCount t ':' + 1 := goSplit_length t ':'
    have hlen : ¬ (goSplit t ':').length > 2 := by omega
    by_cases h2 : (goSplit t ':').length = 2
    · refine ⟨⟨(goSplit t ':').get ⟨0, by omega⟩, (goSplit t ':').get ⟨1, by omega⟩⟩ :: v, ?_⟩
      simp only [parseTasksLoop, if_neg hlen, hv, dif_pos h2]
      rfl
    · have h1 : (goSplit t ':').length = 1 := by omega
      refine ⟨⟨"", (goSplit t ':').get ⟨0, by omega⟩⟩ :: v, ?_⟩
      simp only [parseTasksLoop, if_neg hlen, hv, dif_neg h2, dif_pos h1]
      rfl

theorem parseTasks_of_ne_nil (ts : List String) (h : ts ≠ []) :
    parseTasks ts = parseTasksLoop ts := by
  have : ts.length ≠ 0 := fun h0 => h (List.length_eq_zero.mp h0)
  simp [parseTasks, this]

/-- **C7.** Target parsing grammar (`NewTailCommand`, main.go 92–107): a bare
specifier `a` (no colon) yields `{jobFilter := "", taskName := a}`; a
specifier `j:t` (with `j`, `t` colon-free) yields
`{jobFilter := j, taskName := t}`; any specifier containing two or more
colons is a fatal input error; and an empty input list is a fatal input
error with message "no tasks specified". -/
theorem targetParse_grammar :
    (∀ a : String, (':' : Char) ∉ a.data → parseTasks [a] = .ok [⟨"", a⟩]) ∧
    (∀ j t : String, (':' : Char) ∉ j.data → (':' : Char) ∉ t.data →
        parseTasks [j ++ ":" ++ t] = .ok [⟨j, t⟩]) ∧
    (∀ ts : List String, ∀ a ∈ ts, 2 ≤ charCount a ':' →
        ∃ e, parseTasks ts = .error e) ∧
    parseTasks [] = .error "no tasks specified" := by
  refine ⟨?_, ?_, ?_, rfl⟩
  · intro a ha
    have hsplit : goSplit a ':' = [a] := goSplit_of_not_mem a ':' ha
    have h1 : parseTasksLoop [a] = .ok [⟨"", a⟩] := by
      simp only [parseTasksLoop, hsplit]
      rfl
    rw [parseTasks_of_ne_nil [a] (by simp), h1]
  · intro j t hj ht
    have hsplit : goSplit (j ++ ":" ++ t) ':' = [j, t] := goSplit_job_task j t hj ht
    have h1 : parseTasksLoop [j ++ ":" ++ t] = .ok [⟨j, t⟩] := by
      simp only [parseTasksLoop, hsplit]
      rfl
    rw [parseTasks_of_ne_nil _ (by simp), h1]
  · intro ts a ha hcnt
    obtain ⟨e, he⟩ := parseTasksLoop_error_of_mem ts ⟨a, ha, hcnt⟩
    exact ⟨e, by rw [parseTasks_of_ne_nil ts (List.ne_nil_of_mem ha), he]⟩

/-- Witness for C7: the grammar theorem applied at the concrete inputs
`"app"`, `"web" ++ ":" ++ "app"`, `["a:b:c"]` and `[]`. -/
theorem targetParse_grammar_witness :
    parseTasks ["app"] = .ok [⟨"", "app"⟩] ∧
    parseTasks ["web" ++ ":" ++ "app"] = .ok [⟨"web", "app"⟩] ∧
    (∃ e, parseTasks ["a:b:c"] = .error e) ∧
    parseTasks [] = .error "no tasks specified" :=
  ⟨targetParse_grammar.1 "app" (by decide),
   targetParse_grammar.2.1 "web" "app" (by decide) (by decide),
   targetParse_grammar.2.2.1 ["a:b:c"] "a:b:c" (List.mem_singleton.mpr rfl)
     (by decide),
   targetParse_grammar.2.2.2⟩

/-- **C10.** Given a non-empty task list, target parsing fails if and only if
some specifier splits into more than two colon-separated parts; degenerate
specifiers such as `""`, `"a:"` and `":b"` are accepted and yield Targets
with empty jobFilter and/or taskName. -/
theorem targetParse_reject_iff (ts : List String) (hne : ts ≠ []) :
    ((∃ e, parseTasks ts = .error e) ↔ ∃ a ∈ ts, 2 < (goSplit a ':').length) ∧
    parseTasks [""] = .ok [⟨"", ""⟩] ∧
    parseTasks ["a:"] = .ok [⟨"a", ""⟩] ∧
    parseTasks [":b"] = .ok [⟨"", "b"⟩] := by
  refine ⟨⟨?_, ?_⟩, rfl, rfl, rfl⟩
  · rintro ⟨e, he⟩
    by_contra hno
    push_neg at hno
    have hall : ∀ a ∈ ts, charCount a ':' ≤ 1 := by
      intro a ha
      have := hno a ha
      have hlen := goSplit_length a ':'
      omega
    obtain ⟨v, hv⟩ := parseTasksLoop_ok_of_forall ts hall
    rw [parseTasks_of_ne_nil ts hne, hv] at he
    exact Except.noConfusion he
  · rintro ⟨a, ha, hcnt⟩
    have h2 : 2 ≤ charCount a ':' := by
      have hlen := goSplit_length a ':'
      omega
    obtain ⟨e, he⟩ := parseTasksLoop_error_of_mem ts ⟨a, ha, h2⟩
    exact ⟨e, by rw [parseTasks_of_ne_nil ts hne, he]⟩

/-- Witness for C10: the theorem applied at the concrete list `["x:y:z"]`. -/
theorem targetParse_reject_iff_witness :
    ((∃ e, parseTasks ["x:y:z"] = .error e) ↔
      ∃ a ∈ ["x:y:z"], 2 < (goSplit a ':').length) ∧
    parseTasks [""] = .ok [⟨"", ""⟩] ∧
    parseTasks ["a:"] = .ok [⟨"a", ""⟩] ∧
    parseTasks [":b"] = .ok [⟨"", "b"⟩] :=
  targetParse_reject_iff ["x:y:z"] (by simp)

/-! ## Data model: allocations and the watcher (main.go 111–118, 241–252)

`TaskState` and `Alloc` model the fields of Nomad's allocation (and
allocation list stub) that the program reads: `ID`, `JobID`, `Job.Name`,
`ClientStatus`, `TaskGroup` and `TaskStates` (a map from task name to task
state, modelled as an association list with `List.lookup`).  `lastRestart`
is an opaque timestamp whose value the verified properties never inspect. -/

structure TaskState where
  state : String
  lastRestart : Nat
  deriving DecidableEq, Repr

structure Alloc where
  id : String
  jobId : String
  jobName : String
  clientStatus : String
  taskGroup : String
  taskStates : List (String × TaskState)
  deriving DecidableEq, Repr

/-- The per-target watcher state (main.go 241–248).  The Nomad client, the
mutex and the poll interval are I/O and scheduling concerns; the mutex is
accounted for by making the discovery step's mutations of the watched set
explicit and sequential. -/
structure watcher where
  job : String
  task : String
  deriving DecidableEq, Repr

/-! ## The discovery step (`poll`, main.go 260–302)

One pass of the body of `poll`'s `for` loop over one allocation list.
`infoOk id` models whether `Allocations().Info(id)` succeeds (on failure the
Go code logs and `continue`s).  The watched set `allocationsWatched` is a
list of allocation IDs; starting a stream consumer adds the ID to the set
(in the Go code this add is the first thing the spawned goroutine does,
under the mutex) and records the ID in the returned list of started
consumers.  The result is `(new watched set, IDs started, in list order)`. -/
def pollStep (jw : watcher) (infoOk : String → Bool) :
    List Alloc → List String → List String × List String
  | [], watched => (watched, [])
  | alloc :: rest, watched =>
    if alloc.id ∈ watched then
      -- line 269: already streaming this allocation
      pollStep jw infoOk rest watched
    else if (alloc.taskStates.lookup jw.task).isSome = false then
      -- line 272: allocation has no task state for the watched task
      pollStep jw infoOk rest watched
    else if jw.job ≠ "" ∧ jw.job ≠ alloc.jobId then
      -- line 275: job filter set and does not match
      pollStep jw infoOk rest watched
    else if alloc.clientStatus ≠ "running" then
      -- line 278: allocation not running
      pollStep jw infoOk rest watched
    else if infoOk alloc.id = false then
      -- line 282: detail fetch failed; logged and skipped
      pollStep jw infoOk rest watched
    else
      -- lines 288–299: add to watched set and start a stream consumer
      let r := pollStep jw infoOk rest (alloc.id :: watched)
      (r.1, alloc.id :: r.2)

/-- An allocation passes all content filters of the discovery step and its
detail fetch succeeds, so a consumer would be started for it were it not
already watched. -/
def startable (jw : watcher) (infoOk : String → Bool) (alloc : Alloc) : Prop :=
  (alloc.taskStates.lookup jw.task).isSome = true ∧
  ¬(jw.job ≠ "" ∧ jw.job ≠ alloc.jobId) ∧
  alloc.clientStatus = "running" ∧
  infoOk alloc.id = true

instance (jw : watcher) (infoOk : String → Bool) (alloc : Alloc) :
    Decidable (startable jw infoOk alloc) := by
  unfold startable; infer_instance

theorem pollStep_watched_subset (jw : watcher) (infoOk : String → Bool) :
    ∀ (l : List Alloc) (watched : List String),
      watched ⊆ (pollStep jw infoOk l watched).1 := by
  intro l
  induction l with
  | nil => intro watched; simp [pollStep]
  | cons a rest ih =>
    intro watched
    unfold pollStep
    split
    · exact ih watched
    · split
      · exact ih watched
      · split
        · exact ih watched
        · split
          · exact ih watched
          · split
            · exact ih watched
            · exact fun x hx =>
                ih (a.id :: watched) (List.mem_cons_of_mem a.id hx)

theorem pollStep_mem_fst_of_startable (jw : watcher) (infoOk : String → Bool) :
    ∀ (l : List Alloc) (watched : List String) (a : Alloc), a ∈ l →
      startable jw infoOk a → a.id ∈ (pollStep jw infoOk l watched).1 := by
  intro l
  induction l with
  | nil => intro _ a ha; exact absurd ha (by simp)
  | cons b rest ih =>
    intro watched a ha hs
    rcases List.mem_cons.mp ha with rfl | hmem
    · obtain ⟨h1, h2, h3, h4⟩ := hs
      unfold pollStep
      by_cases hw : a.id ∈ watched
      · rw [if_pos hw]
        exact pollStep_watched_subset jw infoOk rest watched hw
      · rw [if_neg hw, if_neg (by simp [h1]), if_neg h2, if_neg (by simp [h3]),
          if_neg (by simp [h4])]
        show a.id ∈ (pollStep jw infoOk rest (a.id :: watched)).1
        exact pollStep_watched_subset jw infoOk rest (a.id :: watched)
          (List.mem_cons_self a.id watched)
    · unfold pollStep
      split
      · exact ih watched a hmem hs
      · split
        · exact ih watched a hmem hs
        · split
          · exact ih watched a hmem hs
          · split
            · exact ih watched a hmem hs
            · split
              · exact ih watched a hmem hs
              · exact ih (b.id :: watched) a hmem hs

theorem pollStep_stable (jw : watcher) (infoOk : String → Bool) :
    ∀ (l : List Alloc) (watched : List String),
      (∀ a ∈ l, startable jw infoOk a → a.id ∈ watched) →
      pollStep jw infoOk l watched = (watched, []) := by
  intro l
  induction l with
  | nil => intro watched _; rfl
  | cons a rest ih =>
    intro watched h
    have hrest : ∀ b ∈ rest, startable jw infoOk b → b.id ∈ watched :=
      fun b hb => h b (List.mem_cons_of_mem a hb)
    unfold pollStep
    split
    · exact ih watched hrest
    · split
      · exact ih watched hrest
      · split
        · exact ih watched hrest
        · split
          · exact ih watched hrest
          · split
            · exact ih watched hrest
            · -- every filter passed, so `a` is startable, hence watched:
              -- contradiction with the first branch
              exfalso
              have hs : startable jw infoOk a := by
                refine ⟨by simp_all, by assumption, by simp_all, by simp_all⟩
              exact (by assumption : ¬ a.id ∈ watched) (h a (List.mem_cons_self a rest) hs)

theorem pollStep_snd_nodup (jw : watcher) (infoOk : String → Bool) :
    ∀ (l : List Alloc) (watched : List String),
      (pollStep jw infoOk l watched).2.Nodup ∧
      ∀ x ∈ (pollStep jw infoOk l watched).2, x ∉ watched := by
  intro l
  induction l with
  | nil => intro watched; simp [pollStep]
  | cons a rest ih =>
    intro watched
    unfold pollStep
    split
    · exact ih watched
    · split
      · exact ih watched
      · split
        · exact ih watched
        · split
          · exact ih watched
          · split
            · exact ih watched
            · obtain ⟨hnd, hni⟩ := ih (a.id :: watched)
              have hid : a.id ∉ (pollStep jw infoOk rest (a.id :: watched)).2 :=
                fun hm => hni a.id hm (List.mem_cons_self a.id watched)
              constructor
              · exact List.nodup_cons.mpr ⟨hid, hnd⟩
              · intro x hx
                rcases List.mem_cons.mp hx with rfl | hx2
                · assumption
                · exact fun hw => hni x hx2 (List.mem_cons_of_mem a.id hw)

/-- **C1.** Discovery idempotence and deduplication (`poll`, main.go
260–302): one discovery step starts at most one stream consumer per
allocation ID (the started-ID list has no duplicates); it never starts a
consumer for an ID already in the watched set; and re-running the discovery
step on the unchanged allocation list (with no consumer having terminated
in between) starts no new consumer and leaves the watched set — hence its
membership count — unchanged. -/
theorem discovery_idempotent (jw : watcher) (infoOk : String → Bool)
    (allocList : List Alloc) (watched : List String) :
    (pollStep jw infoOk allocList watched).2.Nodup ∧
    (∀ x ∈ watched, x ∉ (pollStep jw infoOk allocList watched).2) ∧
    pollStep jw infoOk allocList (pollStep jw infoOk allocList watched).1 =
      ((pollStep jw infoOk allocList watched).1, []) := by
  obtain ⟨hnd, hni⟩ := pollStep_snd_nodup jw infoOk allocList watched
  refine ⟨hnd, fun x hxw hxs => hni x hxs hxw, ?_⟩
  exact pollStep_stable jw infoOk allocList _
    (fun a ha hs => pollStep_mem_fst_of_startable jw infoOk allocList watched a ha hs)

/-- The selection predicate in the words of the specification (§8): an
Instance is selected for streaming iff its task states contain the Target's
task name, the job filter is empty or equals the Instance's job ID, and the
client status is `running`. -/
def specSelects (jw : watcher) (a : Alloc) : Prop :=
  (a.taskStates.lookup jw.task).isSome = true ∧
  (jw.job = "" ∨ jw.job = a.jobId) ∧
  a.clientStatus = "running"

/-- **C2.** Selection iff: the discovery step starts a stream consumer for
an allocation that is not yet watched (and whose detail fetch succeeds) if
and only if the specification's selection predicate holds: its task states
contain the Target's task name, the job filter is empty or equal to its job
ID, and its client status is `"running"`. -/
theorem discovery_selects_iff (jw : watcher) (infoOk : String → Bool)
    (a : Alloc) (watched : List String) (hnw : a.id ∉ watched)
    (hinfo : infoOk a.id = true) :
    (pollStep jw infoOk [a] watched).2 = [a.id] ↔ specSelects jw a := by
  unfold pollStep
  rw [if_neg hnw]
  by_cases hc1 : (a.taskStates.lookup jw.task).isSome = false
  · rw [if_pos hc1]
    apply iff_of_false
    · simp [pollStep]
    · rintro ⟨h1, -, -⟩
      rw [h1] at hc1
      exact Bool.noConfusion hc1
  · rw [if_neg hc1]
    by_cases hc2 : jw.job ≠ "" ∧ jw.job ≠ a.jobId
    · rw [if_pos hc2]
      apply iff_of_false
      · simp [pollStep]
      · rintro ⟨-, h2, -⟩
        rcases h2 with h2 | h2
        · exact hc2.1 h2
        · exact hc2.2 h2
    · rw [if_neg hc2]
      by_cases hc3 : a.clientStatus ≠ "running"
      · rw [if_pos hc3]
        apply iff_of_false
        · simp [pollStep]
        · rintro ⟨-, -, h3⟩
          exact hc3 h3
      · rw [if_neg hc3, if_neg (by simp [hinfo])]
        apply iff_of_true
        · simp [pollStep]
        · push_neg at hc2 hc3
          refine ⟨?_, ?_, hc3⟩
          · cases h : (a.taskStates.lookup jw.task).isSome with
            | false => exact absurd h hc1
            | true => rfl
          · by_cases hjob : jw.job = ""
            · exact Or.inl hjob
            · exact Or.inr (hc2 hjob)

/-- Witness for C2: a concrete allocation running task `app` of job `web`,
an empty watched set and an always-successful detail fetch. -/
theorem discovery_selects_iff_witness :
    ((pollStep ⟨"", "app"⟩ (fun _ => true)
        [⟨"alloc-0001", "web", "web", "running", "g", [("app", ⟨"running", 0⟩)]⟩]
        []).2 = ["alloc-0001"]) ↔
      specSelects ⟨"", "app"⟩
        ⟨"alloc-0001", "web", "web", "running", "g", [("app", ⟨"running", 0⟩)]⟩ :=
  discovery_selects_iff ⟨"", "app"⟩ (fun _ => true)
    ⟨"alloc-0001", "web", "web", "running", "g", [("app", ⟨"running", 0⟩)]⟩ []
    (List.not_mem_nil _) rfl

/-! ## The stream consumer (`watchAllocationLogs`, main.go 304–346)

`watchAllocationLogs` opens a stdout and a stderr stream and loops on a
four-way `select`.  Each arm of the `select` is modelled as a
`StreamEvent`; one execution of the loop body is the pure step function
`watchStep`, returning the `logLine`s pushed onto the `lines` channel (the
OutputSequence), the messages written through `log.Printf` (diagnostics on
standard error, *not* the OutputSequence), and whether the function
returned.  Every `return` in the Go function is `return nil`: no error is
ever propagated to the caller. -/

structure logLine where
  job : String
  allocation : Alloc
  line : String
  deriving DecidableEq, Repr

inductive StreamEvent where
  | stdoutFrame (data : String)
  | stderrFrame (data : String)
  | stdoutClosed
  | stderrClosed
  | stdoutErr (msg : String)
  | stderrErr (msg : String)
  deriving DecidableEq, Repr

structure StreamStep where
  emitted : List logLine
  logged : List String
  done : Bool
  deriving DecidableEq, Repr

/-- The `for _, line := range strings.Split(...)` loop of a frame arm
(main.go 315–320 / 326–331): skip empty fragments, push the others. -/
def emitFrameLines (jw : watcher) (allocation : Alloc) :
    List String → List logLine
  | [] => []
  | l :: ls =>
    if l = "" then emitFrameLines jw allocation ls
    else ⟨jw.job, allocation, l⟩ :: emitFrameLines jw allocation ls

/-- One iteration of the `select` loop of `watchAllocationLogs`
(main.go 308–345). -/
def watchStep (jw : watcher) (allocation : Alloc) : StreamEvent → StreamStep
  | .stdoutFrame data =>
    ⟨emitFrameLines jw allocation (goSplit data '\n'), [], false⟩
  | .stderrFrame data =>
    ⟨emitFrameLines jw allocation (goSplit data '\n'), [], false⟩
  | .stdoutClosed =>
    ⟨[⟨jw.job, allocation, "stdoutFrames closed!"⟩], [], true⟩
  | .stderrClosed =>
    ⟨[⟨jw.job, allocation, "stderrFrames closed!"⟩], [], true⟩
  | .stdoutErr msg =>
    if goContains msg "unknown task name" then ⟨[], [], true⟩
    else ⟨[], [jw.job ++ ": got error (allocation probably shutting down): " ++ msg], true⟩
  | .stderrErr msg =>
    if goContains msg "unknown task name" then ⟨[], [], true⟩
    else ⟨[], [jw.job ++ ": got error (allocation probably shutting down): " ++ msg], true⟩

theorem emitFrameLines_eq_filter (jw : watcher) (allocation : Alloc) :
    ∀ ls : List String,
      emitFrameLines jw allocation ls =
        (ls.filter (· ≠ "")).map (fun l => ⟨jw.job, allocation, l⟩) := by
  intro ls
  induction ls with
  | nil => rfl
  | cons l ls ih =>
    by_cases hl : l = ""
    · simp [emitFrameLines, hl, ih]
    · simp [emitFrameLines, hl, ih]

/-- A concrete allocation used by witnesses and counterexamples. -/
def sampleAlloc : Alloc :=
  ⟨"0123456789abcdef", "web", "web", "running", "g",
    [("app", ⟨"running", 0⟩)]⟩

/-- **C8.** Frame handling (`watchAllocationLogs`, main.go 310–331): a
received byte chunk is split into fragments on the newline character,
exactly the empty fragments are discarded, and each remaining fragment is
pushed as one `logLine` onto the OutputSequence in the order the fragments
occur in the chunk; a frame never terminates the consumer. -/
theorem frame_split_lines (jw : watcher) (allocation : Alloc) (data : String) :
    (watchStep jw allocation (.stdoutFrame data)).emitted =
      ((goSplit data '\n').filter (· ≠ "")).map
        (fun l => ⟨jw.job, allocation, l⟩) ∧
    (watchStep jw allocation (.stderrFrame data)).emitted =
      ((goSplit data '\n').filter (· ≠ "")).map
        (fun l => ⟨jw.job, allocation, l⟩) ∧
    (watchStep jw allocation (.stdoutFrame data)).done = false ∧
    (watchStep jw allocation (.stderrFrame data)).done = false :=
  ⟨emitFrameLines_eq_filter jw allocation (goSplit data '\n'),
   emitFrameLines_eq_filter jw allocation (goSplit data '\n'), rfl, rfl⟩

/-- **C5 counterexample.** On a terminal stream error the consumer returns
*without* pushing any sentinel line onto the OutputSequence: the error is
written to the diagnostic log instead.  This refutes the claim that every
terminating event emits a final sentinel line onto the OutputSequence. -/
theorem consumer_error_emits_no_sentinel :
    (watchStep ⟨"web", "app"⟩ sampleAlloc
        (.stdoutErr "connection reset by peer")).done = true ∧
    (watchStep ⟨"web", "app"⟩ sampleAlloc
        (.stdoutErr "connection reset by peer")).emitted = [] := by
  constructor <;> rfl

/-- **C5 (amended).** A stream consumer ends exactly when one of its two
streams closes cleanly or reports a terminal error; on a clean close it
pushes one final sentinel informational line onto the OutputSequence before
returning, while on a terminal error it returns without pushing anything
onto the OutputSequence. -/
theorem consumer_termination (jw : watcher) (allocation : Alloc)
    (e : StreamEvent) :
    ((watchStep jw allocation e).done = true ↔
      (e = .stdoutClosed ∨ e = .stderrClosed ∨
        (∃ m, e = .stdoutErr m) ∨ (∃ m, e = .stderrErr m))) ∧
    (e = .stdoutClosed →
      (watchStep jw allocation e).emitted =
        [⟨jw.job, allocation, "stdoutFrames closed!"⟩]) ∧
    (e = .stderrClosed →
      (watchStep jw allocation e).emitted =
        [⟨jw.job, allocation, "stderrFrames closed!"⟩]) ∧
    (∀ m, e = .stdoutErr m ∨ e = .stderrErr m →
      (watchStep jw allocation e).emitted = []) := by
  cases e with
  | stdoutFrame d => refine ⟨⟨fun h => ?_, by simp⟩, by simp, by simp, by simp⟩
                     simp [watchStep] at h
  | stderrFrame d => refine ⟨⟨fun h => ?_, by simp⟩, by simp, by simp, by simp⟩
                     simp [watchStep] at h
  | stdoutClosed => exact ⟨⟨fun _ => Or.inl rfl, fun _ => rfl⟩,
      fun _ => rfl, by simp, by simp⟩
  | stderrClosed => exact ⟨⟨fun _ => Or.inr (Or.inl rfl), fun _ => rfl⟩,
      by simp, fun _ => rfl, by simp⟩
  | stdoutErr m =>
    refine ⟨⟨fun _ => Or.inr (Or.inr (Or.inl ⟨m, rfl⟩)), fun _ => ?_⟩,
      by simp, by simp, ?_⟩
    · by_cases hc : goContains m "unknown task name" <;> simp [watchStep, hc]
    · rintro m' (hm | hm) <;> cases hm
      by_cases hc : goContains m "unknown task name" <;> simp [watchStep, hc]
  | stderrErr m =>
    refine ⟨⟨fun _ => Or.inr (Or.inr (Or.inr ⟨m, rfl⟩)), fun _ => ?_⟩,
      by simp, by simp, ?_⟩
    · by_cases hc : goContains m "unknown task name" <;> simp [watchStep, hc]
    · rintro m' (hm | hm) <;> cases hm
      by_cases hc : goContains m "unknown task name" <;> simp [watchStep, hc]

/-- Witness for C5 (amended): the theorem applied at the clean-close event
and at a concrete error event. -/
theorem consumer_termination_witness :
    (watchStep ⟨"web", "app"⟩ sampleAlloc .stdoutClosed).emitted =
      [⟨"web", sampleAlloc, "stdoutFrames closed!"⟩] ∧
    (watchStep ⟨"web", "app"⟩ sampleAlloc (.stderrErr "boom")).emitted = [] :=
  ⟨(consumer_termination ⟨"web", "app"⟩ sampleAlloc .stdoutClosed).2.1 rfl,
   (consumer_termination ⟨"web", "app"⟩ sampleAlloc (.stderrErr "boom")).2.2.2
     "boom" (Or.inr rfl)⟩

/-- **C6.** Stream error bifurcation (`watchAllocationLogs`, main.go
332–344): every terminal stream error ends the consumer; if the error text
contains `"unknown task name"` the consumer terminates silently (nothing
logged, nothing emitted); any other error is logged with the job name for
context and terminates the consumer, which merely returns — no error is
propagated that could affect other consumers or the discovery loop. -/
theorem stream_error_bifurcation (jw : watcher) (allocation : Alloc)
    (m : String) :
    ((watchStep jw allocation (.stdoutErr m)).done = true ∧
     (watchStep jw allocation (.stderrErr m)).done = true) ∧
    (goContains m "unknown task name" = true →
      (watchStep jw allocation (.stdoutErr m)).logged = [] ∧
      (watchStep jw allocation (.stdoutErr m)).emitted = [] ∧
      (watchStep jw allocation (.stderrErr m)).logged = [] ∧
      (watchStep jw allocation (.stderrErr m)).emitted = []) ∧
    (goContains m "unknown task name" = false →
      (watchStep jw allocation (.stdoutErr m)).logged =
        [jw.job ++ ": got error (allocation probably shutting down): " ++ m] ∧
      (watchStep jw allocation (.stderrErr m)).logged =
        [jw.job ++ ": got error (allocation probably shutting down): " ++ m]) := by
  refine ⟨⟨?_, ?_⟩, fun hc => ?_, fun hc => ?_⟩
  · by_cases hc : goContains m "unknown task name" <;> simp [watchStep, hc]
  · by_cases hc : goContains m "unknown task name" <;> simp [watchStep, hc]
  · simp [watchStep, hc]
  · simp [watchStep, hc]

/-- Witness for C6: a concrete unknown-task error is swallowed silently and
a concrete other error is logged. -/
theorem stream_error_bifurcation_witness :
    (goContains "rpc error: unknown task name given" "unknown task name"
        = true ∧
      (watchStep ⟨"web", "app"⟩ sampleAlloc
        (.stdoutErr "rpc error: unknown task name given")).logged = []) ∧
    (goContains "boom" "unknown task name" = false ∧
      (watchStep ⟨"web", "app"⟩ sampleAlloc (.stdoutErr "boom")).logged =
        ["web: got error (allocation probably shutting down): boom"]) :=
  ⟨⟨by decide,
    ((stream_error_bifurcation ⟨"web", "app"⟩ sampleAlloc
        "rpc error: unknown task name given").2.1 (by decide)).1⟩,
   ⟨by decide,
    ((stream_error_bifurcation ⟨"web", "app"⟩ sampleAlloc "boom").2.2
        (by decide)).1⟩⟩

/-! ## The `ls` command's row table (main.go 173–192)

The `ls` branch of `main` flattens every allocation's task-state map into
rows `(allocationId, jobId, task, state, taskGroup, lastRestart)` and sorts
them with `sort.SliceStable` under the comparison
`rows[i].jobId + rows[i].task < rows[j].jobId + rows[j].task`. -/

structure lsRow where
  allocationId : String
  jobId : String
  task : String
  state : String
  taskGroup : String
  lastRestart : Nat
  deriving DecidableEq, Repr

/-- The row-building double loop (main.go 181–186). -/
def lsRows (allocs : List Alloc) : List lsRow :=
  allocs.flatMap fun a =>
    a.taskStates.map fun p =>
      ⟨a.id, a.jobId, p.1, p.2.state, a.taskGroup, p.2.lastRestart⟩

/-- The sort key `rows[i].jobId + rows[i].task` (main.go 189–190). -/
def rowKey (r : lsRow) : String := r.jobId ++ r.task

/-- The `less` closure passed to `sort.SliceStable` (main.go 188–192). -/
def rowLess (i j : lsRow) : Prop := rowKey i < rowKey j

instance : DecidableRel rowLess := fun i j =>
  inferInstanceAs (Decidable (rowKey i < rowKey j))

/-- `sort.SliceStable(rows, less)`: a stable sort whose postcondition is
that `less j i` fails for `i` preceding `j`; modelled by a stable insertion
sort under the reflexive closure of that comparison. -/
def lsSort (rows : List lsRow) : List lsRow :=
  List.insertionSort (fun a b => ¬ rowLess b a) rows

/-- **C9.** The `ls` command's output rows are sorted ascending,
lexicographically, by the concatenation of job ID and task name. -/
theorem ls_rows_sorted (allocs : List Alloc) :
    List.Sorted (fun a b => rowKey a ≤ rowKey b) (lsSort (lsRows allocs)) := by
  haveI htot : IsTotal lsRow (fun a b => ¬ rowLess b a) := ⟨by
    intro a b
    rcases le_total (rowKey a) (rowKey b) with h | h
    · exact Or.inl (not_lt.mpr h)
    · exact Or.inr (not_lt.mpr h)⟩
  haveI htr : IsTrans lsRow (fun a b => ¬ rowLess b a) := ⟨by
    intro a b c hab hbc
    exact not_lt.mpr (le_trans (not_lt.mp hab) (not_lt.mp hbc))⟩
  have h := List.sorted_insertionSort (fun a b => ¬ rowLess b a) (lsRows allocs)
  exact h.imp fun hab => not_lt.mp hab

/-! ## The line formatter (`logLine.Format`, main.go 219–239)

`Format` runs `json.Unmarshal` on the raw line, targeting a struct with
fields `level` (string), `time` (`time.Time`), `message` (string) and
`trace.id` (string).  The model below reproduces `encoding/json`'s
behaviour on such a target: the input must be exactly one JSON value
(surrounded only by whitespace); the value must be an object or `null`;
object keys are matched case-insensitively against the field tags; a
matched field requires a JSON string (or `null`, which leaves the field at
its zero value); the `time` field's string must moreover be RFC3339.  On
any failure `Format` falls back to the raw text.  The success rendering is
`time.Time.Format("2006-01-02T15:04:05Z")` — the trailing `Z` in that
layout is a literal (it is not followed by `0700` or `07:00`), so the
output is the wall-clock components followed by a literal `Z`. -/

/-- Wall-clock components of a Go `time.Time` as far as `Format`'s layout
`"2006-01-02T15:04:05Z"` can observe them.  The zero `time.Time` is
January 1 of year 1, 00:00:00. -/
structure GoTime where
  year : Nat
  month : Nat
  day : Nat
  hour : Nat
  minute : Nat
  second : Nat
  deriving DecidableEq, Repr

def GoTime.zero : GoTime := ⟨1, 1, 1, 0, 0, 0⟩

def digitVal (c : Char) : Option Nat :=
  if '0' ≤ c ∧ c ≤ '9' then some (c.toNat - 48) else none

def isLeapYear (y : Nat) : Bool :=
  y % 4 = 0 ∧ (y % 100 ≠ 0 ∨ y % 400 = 0)

def daysInMonth (y m : Nat) : Nat :=
  if m = 1 ∨ m = 3 ∨ m = 5 ∨ m = 7 ∨ m = 8 ∨ m = 10 ∨ m = 12 then 31
  else if m = 4 ∨ m = 6 ∨ m = 9 ∨ m = 11 then 30
  else if isLeapYear y then 29
  else 28

/-- Consume the optional fractional-second part `.d+` of an RFC3339
timestamp. -/
def skipFrac : List Char → Option (List Char)
  | '.' :: c :: rest =>
    match digitVal c with
    | none => none
    | some _ =>
      let rec dropDigits : List Char → List Char
        | d :: ds => if (digitVal d).isSome then dropDigits ds else d :: ds
        | [] => []
      some (dropDigits rest)
  | '.' :: [] => none
  | rest => some rest

/-- The timezone tail of an RFC3339 timestamp: `Z` or `±HH:MM`, ending the
string. -/
def parseTZ : List Char → Bool
  | ['Z'] => true
  | [sign, h1, h2, ':', m1, m2] =>
    (sign = '+' ∨ sign = '-') &&
    (match digitVal h1, digitVal h2, digitVal m1, digitVal m2 with
     | some a, some b, some c, some d => 10 * a + b ≤ 23 && 10 * c + d ≤ 59
     | _, _, _, _ => false)
  | _ => false

/-- `time.Parse(time.RFC3339, s)` as used by `time.Time.UnmarshalJSON`:
`YYYY-MM-DDTHH:MM:SS` with optional fractional seconds and a `Z` or
`±HH:MM` offset, with Go's range validation for each component.  `Format`'s
layout prints the wall-clock fields as written, so only those are kept. -/
def parseRFC3339 : List Char → Option GoTime
  | y1 :: y2 :: y3 :: y4 :: '-' :: mo1 :: mo2 :: '-' :: d1 :: d2 :: 'T' ::
      h1 :: h2 :: ':' :: mi1 :: mi2 :: ':' :: s1 :: s2 :: rest =>
    (match digitVal y1, digitVal y2, digitVal y3, digitVal y4,
           digitVal mo1, digitVal mo2, digitVal d1, digitVal d2,
           digitVal h1, digitVal h2, digitVal mi1, digitVal mi2,
           digitVal s1, digitVal s2 with
     | some a, some b, some c, some d, some e, some f, some g, some h,
       some i, some j, some k, some l, some m, some n =>
       let year := 1000 * a + 100 * b + 10 * c + d
       let month := 10 * e + f
       let day := 10 * g + h
       let hour := 10 * i + j
       let minute := 10 * k + l
       let second := 10 * m + n
       match skipFrac rest with
       | none => none
       | some rest2 =>
         if parseTZ rest2 &&
             (1 ≤ month && month ≤ 12) &&
             (1 ≤ day && day ≤ daysInMonth year month) &&
             hour ≤ 23 && minute ≤ 59 && second ≤ 59 then
           some ⟨year, month, day, hour, minute, second⟩
         else none
     | _, _, _, _, _, _, _, _, _, _, _, _, _, _ => none)
  | _ => none

/-! ### A JSON value parser (the subset of `encoding/json` that
`json.Unmarshal` exercises here) -/

inductive Json where
  | null
  | bool (b : Bool)
  | num (lit : String)
  | str (s : String)
  | arr (elems : List Json)
  | obj (fields : List (String × Json))
  deriving Repr

def isJsonWs (c : Char) : Bool :=
  c = ' ' ∨ c = '\t' ∨ c = '\n' ∨ c = '\r'

def skipWs : List Char → List Char
  | c :: rest => if isJsonWs c then skipWs rest else c :: rest
  | [] => []

def hexVal (c : Char) : Option Nat :=
  if '0' ≤ c ∧ c ≤ '9' then some (c.toNat - 48)
  else if 'a' ≤ c ∧ c ≤ 'f' then some (c.toNat - 87)
  else if 'A' ≤ c ∧ c ≤ 'F' then some (c.toNat - 55)
  else none

/-- Body of a JSON string literal, after the opening quote.  Handles the
escapes of `encoding/json`; an invalid `\u` surrogate half decodes to
U+FFFD as in Go. -/
def parseStringBody (fuel : Nat) (cs : List Char) (acc : List Char) :
    Option (String × List Char) :=
  match fuel with
  | 0 => none
  | fuel + 1 =>
    match cs with
    | [] => none
    | '"' :: rest => some (acc.reverse.asString, rest)
    | '\\' :: e :: rest =>
      match e with
      | '"' => parseStringBody fuel rest ('"' :: acc)
      | '\\' => parseStringBody fuel rest ('\\' :: acc)
      | '/' => parseStringBody fuel rest ('/' :: acc)
      | 'b' => parseStringBody fuel rest ('\x08' :: acc)
      | 'f' => parseStringBody fuel rest ('\x0c' :: acc)
      | 'n' => parseStringBody fuel rest ('\n' :: acc)
      | 'r' => parseStringBody fuel rest ('\r' :: acc)
      | 't' => parseStringBody fuel rest ('\t' :: acc)
      | 'u' =>
        match rest with
        | a :: b :: c :: d :: rest2 =>
          match hexVal a, hexVal b, hexVal c, hexVal d with
          | some ha, some hb, some hc, some hd =>
            let code := 4096 * ha + 256 * hb + 16 * hc + hd
            if 0xD800 ≤ code ∧ code ≤ 0xDBFF then
              -- high surrogate: look for a following low surrogate
              match rest2 with
              | '\\' :: 'u' :: a2 :: b2 :: c2 :: d2 :: rest3 =>
                match hexVal a2, hexVal b2, hexVal c2, hexVal d2 with
                | some ha2, some hb2, some hc2, some hd2 =>
                  let code2 := 4096 * ha2 + 256 * hb2 + 16 * hc2 + hd2
                  if 0xDC00 ≤ code2 ∧ code2 ≤ 0xDFFF then
                    let combined :=
                      0x10000 + (code - 0xD800) * 0x400 + (code2 - 0xDC00)
                    parseStringBody fuel rest3 (Char.ofNat combined :: acc)
                  else parseStringBody fuel rest2 ('�' :: acc)
                | _, _, _, _ => parseStringBody fuel rest2 ('�' :: acc)
              | _ => parseStringBody fuel rest2 ('�' :: acc)
            else if 0xDC00 ≤ code ∧ code ≤ 0xDFFF then
              parseStringBody fuel rest2 ('�' :: acc)
            else
              parseStringBody fuel rest2 (Char.ofNat code :: acc)
          | _, _, _, _ => none
        | _ => none
      | _ => none
    | c :: rest =>
      if c.toNat < 0x20 then none
      else parseStringBody fuel rest (c :: acc)

/-- Lex a JSON number starting at `cs`; the literal's value is never used
by the program, so it is kept as text. -/
def parseNumber (cs : List Char) : Option (String × List Char) :=
  let (sign, cs1) :=
    match cs with
    | '-' :: rest => (['-'], rest)
    | _ => (([] : List Char), cs)
  let takeDigits : List Char → List Char × List Char := fun l =>
    (l.takeWhile (fun c => (digitVal c).isSome),
     l.dropWhile (fun c => (digitVal c).isSome))
  match cs1 with
  | '0' :: rest =>
    -- a leading zero must not be followed by another digit
    let (frac, rest2) :=
      match rest with
      | '.' :: r =>
        let (ds, r2) := takeDigits r
        if ds.isEmpty then ([], '.' :: r) else ('.' :: ds, r2)
      | _ => ([], rest)
    if frac.isEmpty && (match rest with | '.' :: _ => true | _ => false) then none
    else
      match rest2 with
      | e :: r =>
        if e = 'e' ∨ e = 'E' then
          let (esign, r1) :=
            match r with
            | '+' :: rr => (['+'], rr)
            | '-' :: rr => (['-'], rr)
            | _ => (([] : List Char), r)
          let (eds, r2) := takeDigits r1
          if eds.isEmpty then none
          else some ((sign ++ '0' :: frac ++ e :: esign ++ eds).asString, r2)
        else some ((sign ++ '0' :: frac).asString, rest2)
      | [] => some ((sign ++ '0' :: frac).asString, [])
  | c :: _ =>
    if (digitVal c).isSome then
      let (ints, rest) := takeDigits cs1
      let (frac, rest2) :=
        match rest with
        | '.' :: r =>
          let (ds, r2) := takeDigits r
          if ds.isEmpty then ([], '.' :: r) else ('.' :: ds, r2)
        | _ => ([], rest)
      if frac.isEmpty && (match rest with | '.' :: _ => true | _ => false) then
        none
      else
        match rest2 with
        | e :: r =>
          if e = 'e' ∨ e = 'E' then
            let (esign, r1) :=
              match r with
              | '+' :: rr => (['+'], rr)
              | '-' :: rr => (['-'], rr)
              | _ => (([] : List Char), r)
            let (eds, r2) := takeDigits r1
            if eds.isEmpty then none
            else some ((sign ++ ints ++ frac ++ e :: esign ++ eds).asString, r2)
          else some ((sign ++ ints ++ frac).asString, rest2)
        | [] => some ((sign ++ ints ++ frac).asString, [])
    else none
  | [] => none

/-- The recursion mode of the JSON parser: at a value, at the members of
an object (after `{` or a comma), or at the elements of an array (after
`[` or a comma).  A single fuel-indexed function keeps the recursion
structural. -/
inductive PMode where
  | value
  | members (acc : List (String × Json))
  | elems (acc : List Json)

/-- The recursive core of the JSON parser. -/
def parseCore : Nat → PMode → List Char → Option (Json × List Char)
  | 0, _, _ => none
  | fuel + 1, .value, cs =>
    (match skipWs cs with
    | 'n' :: 'u' :: 'l' :: 'l' :: rest => some (.null, rest)
    | 't' :: 'r' :: 'u' :: 'e' :: rest => some (.bool true, rest)
    | 'f' :: 'a' :: 'l' :: 's' :: 'e' :: rest => some (.bool false, rest)
    | '"' :: rest =>
      (parseStringBody (rest.length + 1) rest []).map fun p => (.str p.1, p.2)
    | '{' :: rest =>
      (match skipWs rest with
       | '}' :: rest2 => some (.obj [], rest2)
       | _ => parseCore fuel (.members []) (skipWs rest))
    | '[' :: rest =>
      (match skipWs rest with
       | ']' :: rest2 => some (.arr [], rest2)
       | _ => parseCore fuel (.elems []) (skipWs rest))
    | c :: rest =>
      if c = '-' ∨ (digitVal c).isSome then
        (parseNumber (c :: rest)).map fun p => (.num p.1, p.2)
      else none
    | [] => none)
  | fuel + 1, .members acc, cs =>
    (match cs with
    | '"' :: rest =>
      (match parseStringBody (rest.length + 1) rest [] with
      | none => none
      | some (key, rest2) =>
        match skipWs rest2 with
        | ':' :: rest3 =>
          (match parseCore fuel .value rest3 with
          | none => none
          | some (v, rest4) =>
            match skipWs rest4 with
            | ',' :: rest5 =>
              parseCore fuel (.members ((key, v) :: acc)) (skipWs rest5)
            | '}' :: rest5 => some (.obj ((key, v) :: acc).reverse, rest5)
            | _ => none)
        | _ => none)
    | _ => none)
  | fuel + 1, .elems acc, cs =>
    (match parseCore fuel .value cs with
    | none => none
    | some (v, rest) =>
      match skipWs rest with
      | ',' :: rest2 => parseCore fuel (.elems (v :: acc)) rest2
      | ']' :: rest2 => some (.arr (v :: acc).reverse, rest2)
      | _ => none)

/-- One JSON value, leading whitespace allowed. -/
def parseValue (fuel : Nat) (cs : List Char) : Option (Json × List Char) :=
  parseCore fuel .value cs

/-! ### `json.Unmarshal` into `Format`'s anonymous struct -/

/-- The anonymous struct decoded by `Format` (main.go 226–231): fields
`level`, `time`, `message`, `trace.id`; the zero value has empty strings
and the zero time. -/
structure ParsedLine where
  level : String
  time : GoTime
  message : String
  traceId : String
  deriving DecidableEq, Repr

def ParsedLine.zero : ParsedLine := ⟨"", GoTime.zero, "", ""⟩

/-- ASCII lower-casing of one character. -/
def asciiLower (c : Char) : Char :=
  if 'A' ≤ c ∧ c ≤ 'Z' then Char.ofNat (c.toNat + 32) else c

/-- `encoding/json`'s key-to-field matching is case-insensitive with
respect to the struct tag (via `strings.EqualFold`; the tags here are
ASCII and lower-case, so folding the key suffices). -/
def keyMatches (k tag : String) : Bool := k.data.map asciiLower == tag.data

/-- Decode the members of a JSON object into the struct: matched fields
require a JSON string (`null` leaves the field untouched); the `time`
field's string must parse as RFC3339 (`time.Time.UnmarshalJSON`); unknown
keys are ignored; later duplicate keys overwrite earlier ones. -/
def decodeFields (acc : ParsedLine) :
    List (String × Json) → Except String ParsedLine
  | [] => .ok acc
  | (k, v) :: rest =>
    if keyMatches k "level" then
      match v with
      | .str s => decodeFields { acc with level := s } rest
      | .null => decodeFields acc rest
      | _ => .error "json: cannot unmarshal value into Go struct field level of type string"
    else if keyMatches k "time" then
      match v with
      | .null => decodeFields acc rest
      | .str s =>
        match parseRFC3339 s.data with
        | some t => decodeFields { acc with time := t } rest
        | none => .error "parsing time: not RFC3339"
      | _ => .error "Time.UnmarshalJSON: input is not a JSON string"
    else if keyMatches k "message" then
      match v with
      | .str s => decodeFields { acc with message := s } rest
      | .null => decodeFields acc rest
      | _ => .error "json: cannot unmarshal value into Go struct field message of type string"
    else if keyMatches k "trace.id" then
      match v with
      | .str s => decodeFields { acc with traceId := s } rest
      | .null => decodeFields acc rest
      | _ => .error "json: cannot unmarshal value into Go struct field trace.id of type string"
    else decodeFields acc rest

/-- `json.Unmarshal([]byte(s), &parsed)` (main.go 232): the input must be
exactly one JSON value surrounded only by whitespace, and that value must
be an object (decoded field by field) or `null` (which leaves the struct at
its zero value). -/
def unmarshalLogLine (s : String) : Except String ParsedLine :=
  match parseValue (s.data.length + 1) s.data with
  | none => .error "invalid JSON"
  | some (v, rest) =>
    if skipWs rest ≠ [] then .error "invalid character after top-level value"
    else
      match v with
      | .obj fields => decodeFields ParsedLine.zero fields
      | .null => .ok ParsedLine.zero
      | _ => .error "json: cannot unmarshal value into Go value of type struct"

/-! ### `Format` itself -/

def natPad2 (n : Nat) : String :=
  if n < 10 then "0" ++ toString n else toString n

def natPad4 (n : Nat) : String :=
  if n < 10 then "000" ++ toString n
  else if n < 100 then "00" ++ toString n
  else if n < 1000 then "0" ++ toString n
  else toString n

/-- `time.Time.Format("2006-01-02T15:04:05Z")`: the trailing `Z` of the
layout is a literal character (it is not the start of `Z0700`/`Z07:00`), so
the rendering is the zero-padded wall-clock fields followed by `Z`. -/
def goTimeFormat (t : GoTime) : String :=
  natPad4 t.year ++ "-" ++ natPad2 t.month ++ "-" ++ natPad2 t.day ++ "T" ++
    natPad2 t.hour ++ ":" ++ natPad2 t.minute ++ ":" ++ natPad2 t.second ++ "Z"

/-- `logLine.Format` (main.go 225–239).  `color.CyanString` and
`color.GreenString` are the identity when colour output is disabled (the
non-terminal case); colouring is a rendering-device concern outside this
model.  `line.allocation.ID[:8]` slices the first 8 bytes of the
allocation ID and *panics* when the ID is shorter than 8 bytes (allocation
IDs are ASCII UUIDs, so bytes coincide with characters); the panic is
modelled as `none`.  (The Go code also dereferences
`line.allocation.Job.Name`; allocations returned by `Allocations().Info`
always carry their job, and the model keeps `jobName` as a plain field.) -/
def logLineFormat (line : logLine) : Option String :=
  let formatted :=
    match unmarshalLogLine line.line with
    | .ok parsed =>
      "[" ++ goTimeFormat parsed.time ++ "] [" ++ parsed.level ++ "] " ++
        parsed.message
    | .error _ => line.line
  if line.allocation.id.length < 8 then none
  else
    some (line.allocation.jobName ++ "(" ++ line.allocation.id.take 8 ++ "): "
      ++ formatted)

/-! ### Formatter claims -/

/-- **C3.** Rendering contract of `Format` (main.go 225–239), for lines
whose allocation ID is at least 8 characters (shorter IDs panic — see the
C4 counterexample; real allocation IDs are 36-character UUIDs): if
`json.Unmarshal` succeeds the rendering is
`[<time>] [<level>] <message>`, if it fails the raw text passes through
verbatim, and both are prefixed with `<jobName>(<first 8 of id>): `.
Concretely, the structured example renders as
`[2023-01-01T00:00:00Z] [info] hello` after the prefix, and non-JSON input
passes through unchanged after the prefix. -/
theorem format_renders (l : logLine) (h8 : 8 ≤ l.allocation.id.length) :
    (∀ p, unmarshalLogLine l.line = .ok p →
      logLineFormat l = some (l.allocation.jobName ++ "(" ++
        l.allocation.id.take 8 ++ "): " ++
        ("[" ++ goTimeFormat p.time ++ "] [" ++ p.level ++ "] " ++
          p.message))) ∧
    (∀ e, unmarshalLogLine l.line = .error e →
      logLineFormat l = some (l.allocation.jobName ++ "(" ++
        l.allocation.id.take 8 ++ "): " ++ l.line)) ∧
    logLineFormat ⟨"web", sampleAlloc,
      "\x7b\"level\":\"info\",\"time\":\"2023-01-01T00:00:00Z\",\"message\":\"hello\"\x7d"⟩
      = some "web(01234567): [2023-01-01T00:00:00Z] [info] hello" ∧
    logLineFormat ⟨"web", sampleAlloc, "plain text"⟩ =
      some "web(01234567): plain text" := by
  have hlt : ¬ l.allocation.id.length < 8 := by omega
  refine ⟨?_, ?_, by decide, by decide⟩
  · intro p hp
    simp [logLineFormat, hp, hlt]
  · intro e he
    simp [logLineFormat, he, hlt]

/-- Witness for C3: the theorem applied at the structured example line
(whose allocation, `sampleAlloc`, has a 16-character ID). -/
theorem format_renders_witness :
    logLineFormat ⟨"web", sampleAlloc,
      "\x7b\"level\":\"info\",\"time\":\"2023-01-01T00:00:00Z\",\"message\":\"hello\"\x7d"⟩
      = some "web(01234567): [2023-01-01T00:00:00Z] [info] hello" :=
  (format_renders ⟨"web", sampleAlloc,
      "\x7b\"level\":\"info\",\"time\":\"2023-01-01T00:00:00Z\",\"message\":\"hello\"\x7d"⟩
    (by decide)).2.2.1

/-- **C4 counterexample.** `Format` is *not* total over arbitrary
allocation identities: `line.allocation.ID[:8]` panics when the ID is
shorter than 8 bytes.  At the one-character ID `"x"` the function fails
(modelled as `none`) instead of returning a string. -/
theorem format_panics_on_short_id :
    logLineFormat ⟨"web", ⟨"x", "web", "web", "running", "g", []⟩, "hi"⟩
      = none := by decide

/-- **C4 (amended).** For every `logLine` whose allocation ID has at least
8 characters, `Format` is pure and total: it returns a string for any raw
text, parse failure degrading to passthrough rather than an error. -/
theorem format_total (l : logLine) (h8 : 8 ≤ l.allocation.id.length) :
    (logLineFormat l).isSome = true := by
  have hlt : ¬ l.allocation.id.length < 8 := by omega
  simp [logLineFormat, hlt]

/-- Witness for C4 (amended): totality at a concrete line with a
16-character allocation ID. -/
theorem format_total_witness :
    (logLineFormat ⟨"web", sampleAlloc, "hi"⟩).isSome = true :=
  format_total ⟨"web", sampleAlloc, "hi"⟩ (by decide)

end Nomadlogs
